import Mathlib

/-!
Shallow embedding of the jsonassert library (assert.go).

The Go library decodes JSON into dynamic values (`interface{}`): nil, bool,
float64, string, `[]interface{}` and `map[string]interface{}`.  `JSONValue`
is the tagged union of those shapes; Go maps are modelled as association
lists (`JsonMap`), and a Go map index expression `m[k]`, whose result is the
zero value `nil` for an absent key, is modelled by `mapIndex`.  JSON numbers
are modelled as rationals standing for the decoded float64 values: the
library only ever tests numbers for equality and for being zero, and both
tests are modelled as the exact tests on the rationals (the rounding the
float64 decoder applies to the number text is outside the model).
Diagnostics (`error` values built by `fmt.Errorf`) are modelled by the
structured type `Diag` carrying the same data the messages are formatted
from.
-/

inductive JSONValue where
  | null
  | bool (b : Bool)
  | num (x : Rat)
  | str (s : String)
  | arr (elems : List JSONValue)
  | obj (entries : List (String × JSONValue))
deriving Repr

/-- A decoded `map[string]interface\x7b\x7d`, as an association list. -/
abbrev JsonMap := List (String × JSONValue)

/-- One diagnostic reported through the `Testing` collaborator.  `mismatch`
models the `notifyError` message `"<loc> mismatch. <v1> vs. <v2>"`,
`unmarshal n e` the message `"error unmarshalling json<n>: <e>"`,
`invalidArg`, `openError` and `decodeError` the three early failures of
`StructCheck`, and `summary` the `"*** <n> errors in <file>"` header. -/
inductive Diag where
  | mismatch (location : String) (left right : JSONValue)
  | unmarshal (side : Nat) (msg : String)
  | invalidArg (msg : String)
  | openError (msg : String)
  | decodeError (filename : String) (msg : String)
  | summary (count : Nat) (filename : String)
deriving Repr

/-- Go interface comparison `value2 == value1` where `value1` is a `bool`:
true exactly when the dynamic type is `bool` and the values agree. -/
def JSONValue.eqBool : JSONValue → Bool → Bool
  | .bool b2, b => b2 == b
  | _, _ => false

/-- Go interface comparison against a `float64`. -/
def JSONValue.eqNum : JSONValue → Rat → Bool
  | .num y, x => y == x
  | _, _ => false

/-- Go interface comparison against a `string`. -/
def JSONValue.eqStr : JSONValue → String → Bool
  | .str t, s => t == s
  | _, _ => false

/-- Go interface comparison `value == nil`. -/
def JSONValue.isNullV : JSONValue → Bool
  | .null => true
  | _ => false

/-- The `keys` helper of assert.go: the distinct keys of the map, sorted
with `sort.Strings` (lexicographic order). -/
def keys (m : JsonMap) : List String :=
  List.insertionSort (· ≤ ·) (m.map Prod.fst).dedup

/-- Go map indexing `m[key]`: the stored value, or the zero value `nil`
when the key is absent. -/
def mapIndex (m : JsonMap) (key : String) : JSONValue :=
  match m.lookup key with
  | some v => v
  | none => .null

/-- The `ok` of a Go comma-ok map lookup `v, ok := m[key]`. -/
def containsKey (m : JsonMap) (key : String) : Bool :=
  (m.lookup key).isSome

/-- The `getLocation` helper of assert.go. -/
def getLocation (location key : String) : String :=
  if location = "" then key else location ++ "." ++ key

/-- The `boolEqual` helper of assert.go. -/
def boolEqual (value1 : Bool) (value2 : JSONValue) : Bool :=
  value2.eqBool value1 || (!value1 && value2.isNullV)

/-- The `floatEqual` helper of assert.go. -/
def floatEqual (value1 : Rat) (value2 : JSONValue) : Bool :=
  value2.eqNum value1 || (value1 == 0 && value2.isNullV)

/-- The `stringEqual` helper of assert.go. -/
def stringEqual (value1 : String) (value2 : JSONValue) : Bool :=
  value2.eqStr value1 || (value1 == "" && value2.isNullV)

theorem sizeOf_lookup_lt (m : JsonMap) (key : String) (v : JSONValue)
    (h : m.lookup key = some v) : sizeOf v < sizeOf m := by
  induction m with
  | nil => simp [List.lookup] at h
  | cons kv tl ih =>
    rw [List.lookup] at h
    split at h
    · cases h
      cases kv with
      | mk k w => simp; omega
    · have := ih h
      cases kv with
      | mk k w => simp; omega

theorem one_le_sizeOf_list {α : Type} [SizeOf α] (l : List α) : 1 ≤ sizeOf l := by
  cases l with
  | nil => simp
  | cons x xs => simp; omega

theorem sizeOf_mapIndex_le (m : JsonMap) (key : String) :
    sizeOf (mapIndex m key) ≤ sizeOf m := by
  rw [mapIndex]
  cases h : m.lookup key with
  | none =>
    simp only
    have := one_le_sizeOf_list m
    simp; omega
  | some v =>
    simp only
    exact Nat.le_of_lt (sizeOf_lookup_lt m key v h)

theorem sizeOf_mapIndex_lt (m : JsonMap) (key : String)
    (h : containsKey m key = true) : sizeOf (mapIndex m key) < sizeOf m := by
  rw [containsKey, Option.isSome_iff_exists] at h
  obtain ⟨v, hv⟩ := h
  rw [mapIndex, hv]
  exact sizeOf_lookup_lt m key v hv

theorem mem_keys_iff (m : JsonMap) (k : String) :
    k ∈ keys m ↔ k ∈ m.map Prod.fst := by
  rw [keys]
  rw [(List.perm_insertionSort (· ≤ ·) (m.map Prod.fst).dedup).mem_iff]
  exact List.mem_dedup

theorem keys_sorted (m : JsonMap) : (keys m).Sorted (· ≤ ·) :=
  List.sorted_insertionSort (· ≤ ·) (m.map Prod.fst).dedup

theorem keys_nodup (m : JsonMap) : (keys m).Nodup :=
  (List.perm_insertionSort (· ≤ ·) (m.map Prod.fst).dedup).nodup_iff.mpr
    (List.nodup_dedup (m.map Prod.fst))

theorem lookup_isSome_iff (m : JsonMap) (k : String) :
    (m.lookup k).isSome = true ↔ k ∈ m.map Prod.fst := by
  induction m with
  | nil => simp [List.lookup]
  | cons kv tl ih =>
    rw [List.lookup]
    split
    · rename_i hk
      simp only [Option.isSome_some, List.map_cons, List.mem_cons]
      have : k = kv.fst := eq_of_beq hk
      simp [this]
    · rename_i hk
      simp only [List.map_cons, List.mem_cons]
      have : ¬ k = kv.fst := by
        intro hh
        rw [hh] at hk
        simp at hk
      simp [this, ih]

theorem containsKey_iff (m : JsonMap) (k : String) :
    containsKey m k = true ↔ k ∈ m.map Prod.fst := by
  rw [containsKey]; exact lookup_isSome_iff m k

theorem mapIndex_eq_null_of_not_contains (m : JsonMap) (k : String)
    (h : containsKey m k = false) : mapIndex m k = JSONValue.null := by
  rw [containsKey] at h
  rw [mapIndex]
  cases hl : m.lookup k with
  | none => simp
  | some v => rw [hl] at h; simp at h

mutual

/-- The `isEmpty` helper of assert.go: nil, the empty string, numeric zero,
false, an empty slice, and maps accepted by `isMapEmpty` are empty. -/
def isEmpty : JSONValue → Bool
  | .null => true
  | .str s => s == ""
  | .num x => x == 0
  | .bool b => b == false
  | .obj m => isMapEmpty m
  | .arr xs => xs.length == 0
termination_by v => sizeOf v

/-- The `isMapEmpty` helper of assert.go: every value stored under a key of
the map is itself empty. -/
def isMapEmpty (m : JsonMap) : Bool :=
  (keys m).attach.all fun k => isEmpty (mapIndex m k.1)
termination_by sizeOf m
decreasing_by
  have hmem : k.1 ∈ m.map Prod.fst := (mem_keys_iff m k.1).mp k.2
  have := sizeOf_mapIndex_lt m k.1 ((containsKey_iff m k.1).mpr hmem)
  simpa using this

end

mutual

/-- The `compareValues` function of assert.go: dispatch on the dynamic type
of the left value. -/
def compareValues (location : String) (value1 value2 : JSONValue) : List Diag :=
  match value1 with
  | .bool v1 =>
    if !boolEqual v1 value2 then [Diag.mismatch location value1 value2] else []
  | .num v1 =>
    if !floatEqual v1 value2 then [Diag.mismatch location value1 value2] else []
  | .obj v1 =>
    match value2 with
    | .obj v2 => compareMaps location v1 v2
    | .null => compareMaps location v1 []
    | _ => [Diag.mismatch location value1 value2]
  | .str v1 =>
    if !stringEqual v1 value2 then [Diag.mismatch location value1 value2] else []
  | .null =>
    if !isEmpty value2 then [Diag.mismatch location value1 value2] else []
  | .arr elems1 => compareSlices location (JSONValue.arr elems1) value2
termination_by (sizeOf value1 + sizeOf value2, 2, 0)
decreasing_by
  all_goals simp_wf
  all_goals try (have h1 := sizeOf_mapIndex_le map1 key; have h2 := sizeOf_mapIndex_le map2 key)
  all_goals (simp [Prod.lex_def] <;> omega)

/-- The `compareMaps` function of assert.go: a pass over the sorted keys of
the left map, then a pass over the sorted keys of the right map that only
compares the keys missing from the left map. -/
def compareMaps (location : String) (map1 map2 : JsonMap) : List Diag :=
  compareMapsPass1 location map1 map2 (keys map1)
    ++ compareMapsPass2 location map1 map2 (keys map2)
termination_by (sizeOf map1 + sizeOf map2 + 1, 1, 0)
decreasing_by
  all_goals simp_wf
  all_goals try (have h1 := sizeOf_mapIndex_le map1 key; have h2 := sizeOf_mapIndex_le map2 key)
  all_goals (simp [Prod.lex_def] <;> omega)

/-- The first `for` loop of `compareMaps`: compare `map1[key]` against
`map2[key]` for every sorted key of `map1`, appending the diagnostics. -/
def compareMapsPass1 (location : String) (map1 map2 : JsonMap) : List String → List Diag
  | [] => []
  | key :: rest =>
    compareValues (getLocation location key) (mapIndex map1 key) (mapIndex map2 key)
      ++ compareMapsPass1 location map1 map2 rest
termination_by ks => (sizeOf map1 + sizeOf map2 + 1, 0, ks.length)
decreasing_by
  all_goals simp_wf
  all_goals try (have h1 := sizeOf_mapIndex_le map1 key; have h2 := sizeOf_mapIndex_le map2 key)
  all_goals (simp [Prod.lex_def] <;> omega)

/-- The second `for` loop of `compareMaps`: for every sorted key of `map2`
absent from `map1`, compare the zero value `nil` of the comma-ok lookup
against `map2[key]`, appending the diagnostics. -/
def compareMapsPass2 (location : String) (map1 map2 : JsonMap) : List String → List Diag
  | [] => []
  | key :: rest =>
    if containsKey map1 key then compareMapsPass2 location map1 map2 rest
    else
      compareValues (getLocation location key) (mapIndex map1 key) (mapIndex map2 key)
        ++ compareMapsPass2 location map1 map2 rest
termination_by ks => (sizeOf map1 + sizeOf map2 + 1, 0, ks.length)
decreasing_by
  all_goals simp_wf
  all_goals try (have h1 := sizeOf_mapIndex_le map1 key; have h2 := sizeOf_mapIndex_le map2 key)
  all_goals (simp [Prod.lex_def] <;> omega)

/-- The `compareSlices` function of assert.go: the right value must be a
slice, or nil standing for a zero-length slice, of the same length as the
left slice; equal lengths are compared element by element. -/
def compareSlices (location : String) (value1 value2 : JSONValue) : List Diag :=
  match value1 with
  | .arr elems1 =>
    match value2 with
    | .arr elems2 =>
      if elems1.length ≠ elems2.length then [Diag.mismatch location value1 value2]
      else compareSlicesLoop location 0 elems1 elems2
    | .null =>
      if elems1.length ≠ 0 then [Diag.mismatch location value1 value2]
      else []
    | _ => [Diag.mismatch location value1 value2]
  | _ => [Diag.mismatch location value1 value2]
termination_by (sizeOf value1 + sizeOf value2, 1, 0)
decreasing_by
  all_goals simp_wf
  all_goals try (have h1 := sizeOf_mapIndex_le map1 key; have h2 := sizeOf_mapIndex_le map2 key)
  all_goals (simp [Prod.lex_def] <;> omega)

/-- The index loop of `compareSlices`: compare elements pairwise at the
indexed locations `location[i]`. -/
def compareSlicesLoop (location : String) (i : Nat) :
    List JSONValue → List JSONValue → List Diag
  | x :: xs, y :: ys =>
    compareValues (location ++ "[" ++ toString i ++ "]") x y
      ++ compareSlicesLoop location (i + 1) xs ys
  | _, _ => []
termination_by xs ys => (sizeOf xs + sizeOf ys, 0, 0)
decreasing_by
  all_goals simp_wf
  all_goals try (have h1 := sizeOf_mapIndex_le map1 key; have h2 := sizeOf_mapIndex_le map2 key)
  all_goals (simp [Prod.lex_def] <;> omega)

end

/-- Rendering of a decoded value by Go's `%v` verb, as `notifyError` formats
it: nil prints `<nil>`, slices print space-separated in brackets, maps print
`map[k:v ...]` with sorted keys.  Non-integer numbers are rendered as
rationals rather than in Go float syntax; no claim depends on that case. -/
def goString (v : JSONValue) : String :=
  match v with
  | .null => "<nil>"
  | .bool b => if b then "true" else "false"
  | .num x => if x.den = 1 then toString x.num else toString x
  | .str s => s
  | .arr xs =>
    "[" ++ String.intercalate " " (xs.attach.map fun e => goString e.1) ++ "]"
  | .obj m =>
    "map[" ++ String.intercalate " "
      ((keys m).attach.map fun k => k.1 ++ ":" ++ goString (mapIndex m k.1)) ++ "]"
termination_by sizeOf v
decreasing_by
  · have := List.sizeOf_lt_of_mem e.2
    simp; omega
  · rename_i m
    have hmem := (mem_keys_iff m k.1).mp k.2
    have := sizeOf_mapIndex_lt m k.1 ((containsKey_iff m k.1).mpr hmem)
    simp; omega

/-- The `quoteString` helper of assert.go: strings are rendered with `%q`
(modelled without escape sequences), everything else with `%v`. -/
def quoteString : JSONValue → String
  | .str s => "\"" ++ s ++ "\""
  | v => goString v

/-- The text of each diagnostic, as assert.go formats it with `fmt.Errorf`. -/
def diagMessage : Diag → String
  | .mismatch location v1 v2 =>
    location ++ " mismatch. " ++ quoteString v1 ++ " vs. " ++ quoteString v2
  | .unmarshal side msg => "error unmarshalling json" ++ toString side ++ ": " ++ msg
  | .invalidArg msg => msg
  | .openError msg => msg
  | .decodeError filename msg => "error decoding json in " ++ filename ++ ": " ++ msg
  | .summary n filename => "*** " ++ toString n ++ " errors in " ++ filename

/-- The `EqualMap` function of assert.go.  Its two byte-slice arguments
enter only through `getJSONMap`, i.e. `json.Unmarshal`; the embedding takes
the two unmarshal results directly: `.ok m` a successfully decoded map,
`.error e` a parse failure with message `e`. -/
def EqualMap (json1 json2 : Except String JsonMap) : List Diag :=
  match json1, json2 with
  | .error e1, .error e2 => [Diag.unmarshal 1 e1, Diag.unmarshal 2 e2]
  | .error e1, .ok _ => [Diag.unmarshal 1 e1]
  | .ok _, .error e2 => [Diag.unmarshal 2 e2]
  | .ok m1, .ok m2 => compareMaps "" m1 m2

/-- The `EqualSlice` function of assert.go, with the two `getJSONSlice`
results as inputs, like `EqualMap`. -/
def EqualSlice (json1 json2 : Except String (List JSONValue)) : List Diag :=
  match json1, json2 with
  | .error e1, .error e2 => [Diag.unmarshal 1 e1, Diag.unmarshal 2 e2]
  | .error e1, .ok _ => [Diag.unmarshal 1 e1]
  | .ok _, .error e2 => [Diag.unmarshal 2 e2]
  | .ok s1, .ok s2 => compareSlices "" (JSONValue.arr s1) (JSONValue.arr s2)

/-- The `notifyErrors` helper of assert.go: a `"*** n errors in file"`
header when any diagnostics exist, then the diagnostics in order. -/
def notifyErrors (filename : String) (errors : List Diag) : List Diag :=
  if errors.length > 0 then Diag.summary errors.length filename :: errors
  else errors

/-- The `reflect.Kind` values that `resultArgCheck` inspects. -/
inductive GoKind where
  | Ptr | Struct | Map | Slice | Array | Bool | Int | Float64 | String | Invalid
deriving DecidableEq, Repr

/-- The dynamic type of the `result` argument of `StructCheck`, as far as
`reflect` inspects it: a pointer type with its element type, or a
non-pointer type identified by its kind. -/
inductive GoType where
  | ptrTo (elem : GoType)
  | structType (name : String)
  | mapType
  | sliceType
  | arrayType
  | boolType
  | intType
  | float64Type
  | stringType
deriving DecidableEq, Repr

def GoType.kind : GoType → GoKind
  | .ptrTo _ => .Ptr
  | .structType _ => .Struct
  | .mapType => .Map
  | .sliceType => .Slice
  | .arrayType => .Array
  | .boolType => .Bool
  | .intType => .Int
  | .float64Type => .Float64
  | .stringType => .String

/-- Rendering of a type by Go's `%T` verb, as far as the model needs it. -/
def GoType.typeString : GoType → String
  | .ptrTo e => "*" ++ e.typeString
  | .structType n => n
  | .mapType => "map"
  | .sliceType => "slice"
  | .arrayType => "array"
  | .boolType => "bool"
  | .intType => "int"
  | .float64Type => "float64"
  | .stringType => "string"

/-- A Go runtime fault.  `nilTypeKind` is the nil-pointer panic raised by
`resT.Kind()` in resultArgCheck when `result` is a nil interface, for which
`reflect.TypeOf` returns the nil `reflect.Type`. -/
inductive GoPanic where
  | nilTypeKind
deriving DecidableEq, Repr

/-- The pointer-to-container check of `resultArgCheck` on an argument that
carries a dynamic type: it must be a pointer to a struct, map, slice or
array; the first component reports whether the element type is struct- or
map-shaped, the second the error, if any. -/
def resultArgCheckT (resT : GoType) : Bool × Option String :=
  let resKind := resT.kind
  let elemKind : GoKind :=
    match resT with
    | .ptrTo e => e.kind
    | _ => .Invalid
  let isMapType := elemKind == GoKind.Struct || elemKind == GoKind.Map
  if resKind ≠ GoKind.Ptr ∨
      (elemKind ≠ GoKind.Struct ∧ elemKind ≠ GoKind.Map ∧
       elemKind ≠ GoKind.Slice ∧ elemKind ≠ GoKind.Array) then
    (isMapType,
     some ("invalid argument: result must be a pointer to a struct, slice, or map, but got "
       ++ resT.typeString))
  else (isMapType, none)

/-- The `resultArgCheck` function of assert.go over the dynamic type of its
`interface\x7b\x7d` argument, where `none` is a nil interface.  assert.go
calls `resT.Kind()` without a nil check, so a nil interface argument raises
the nil-pointer panic instead of returning; a typed argument runs the
pointer-to-container check. -/
def resultArgCheck : Option GoType → Except GoPanic (Bool × Option String)
  | none => Except.error GoPanic.nilTypeKind
  | some resT => Except.ok (resultArgCheckT resT)

/-- The message `json.Unmarshal` produces on an empty input buffer, which
is what `json.NewEncoder(...).Encode` leaves behind when it fails. -/
def emptyBufferParseError : String := "unexpected end of JSON input"

/-- Results of the effectful steps of `StructCheck`, which live in the Go
standard library: opening the file, decoding its text into `result`,
re-encoding `result` (whose error assert.go discards), and unmarshalling
the original and re-encoded buffers inside `EqualMap`/`EqualSlice`. -/
structure RoundTripEnv where
  openResult : Except String Unit
  decodeFailure : Option String
  encodeFails : Bool
  origMap : Except String JsonMap
  encodedMap : Except String JsonMap
  origSlice : Except String (List JSONValue)
  encodedSlice : Except String (List JSONValue)

/-- The unmarshal result for the re-encoded buffer on the map path: when
`Encode` failed it wrote nothing, so the buffer is empty and unmarshalling
it fails. -/
def encMapResult (env : RoundTripEnv) : Except String JsonMap :=
  if env.encodeFails then Except.error emptyBufferParseError else env.encodedMap

/-- The unmarshal result for the re-encoded buffer on the slice path. -/
def encSliceResult (env : RoundTripEnv) : Except String (List JSONValue) :=
  if env.encodeFails then Except.error emptyBufferParseError else env.encodedSlice

/-- The `StructCheck` function of assert.go: validate the result argument
(whose panic on a nil interface propagates, reporting nothing), open the
file, decode it, re-encode, and hand both buffers to `EqualMap` or
`EqualSlice` according to the argument shape, reporting through
`notifyErrors`.  The returned `Except.ok` value is the diagnostic list the
`Testing` collaborator receives; `Except.error` is an escaped panic. -/
def StructCheck (filename : String) (result : Option GoType) (env : RoundTripEnv) :
    Except GoPanic (List Diag) :=
  match resultArgCheck result with
  | .error p => Except.error p
  | .ok (_, some msg) => Except.ok [Diag.invalidArg msg]
  | .ok (isMapType, none) =>
    match env.openResult with
    | .error e => Except.ok [Diag.openError e]
    | .ok _ =>
      match env.decodeFailure with
      | some e => Except.ok [Diag.decodeError filename e]
      | none =>
        if isMapType then
          Except.ok (notifyErrors filename (EqualMap env.origMap (encMapResult env)))
        else
          Except.ok (notifyErrors filename (EqualSlice env.origSlice (encSliceResult env)))

theorem mapIndex_nil (k : String) : mapIndex [] k = JSONValue.null := by
  simp [mapIndex, List.lookup]

theorem compareMapsPass1_eq (location : String) (map1 map2 : JsonMap) :
    ∀ ks : List String, compareMapsPass1 location map1 map2 ks =
      (ks.map fun k =>
        compareValues (getLocation location k) (mapIndex map1 k) (mapIndex map2 k)).flatten
  | [] => by simp [compareMapsPass1]
  | key :: rest => by
    rw [compareMapsPass1]
    simp [compareMapsPass1_eq location map1 map2 rest]

theorem compareMapsPass2_eq (location : String) (map1 map2 : JsonMap) :
    ∀ ks : List String, compareMapsPass2 location map1 map2 ks =
      ((ks.filter fun k => !containsKey map1 k).map fun k =>
        compareValues (getLocation location k) (mapIndex map1 k) (mapIndex map2 k)).flatten
  | [] => by simp [compareMapsPass2]
  | key :: rest => by
    rw [compareMapsPass2]
    by_cases h : containsKey map1 key
    · simp [h, List.filter_cons, compareMapsPass2_eq location map1 map2 rest]
    · simp [h, List.filter_cons, compareMapsPass2_eq location map1 map2 rest]

theorem compareMaps_eq (location : String) (map1 map2 : JsonMap) :
    compareMaps location map1 map2 =
      ((keys map1).map fun k =>
        compareValues (getLocation location k) (mapIndex map1 k) (mapIndex map2 k)).flatten
      ++ (((keys map2).filter fun k => !containsKey map1 k).map fun k =>
        compareValues (getLocation location k) JSONValue.null (mapIndex map2 k)).flatten := by
  rw [compareMaps, compareMapsPass1_eq, compareMapsPass2_eq]
  congr 1
  apply congrArg
  apply List.map_congr_left
  intro k hk
  rw [List.mem_filter] at hk
  have : containsKey map1 k = false := by
    rcases hk with ⟨_, h2⟩
    simpa using h2
  rw [mapIndex_eq_null_of_not_contains map1 k this]

theorem compareValues_obj_obj (location : String) (m1 m2 : JsonMap) :
    compareValues location (JSONValue.obj m1) (JSONValue.obj m2) =
      compareMaps location m1 m2 := by
  rw [compareValues]

theorem compareValues_obj_null (location : String) (m1 : JsonMap) :
    compareValues location (JSONValue.obj m1) JSONValue.null =
      compareMaps location m1 [] := by
  rw [compareValues]

theorem compareValues_obj_other (location : String) (m1 : JsonMap) (v2 : JSONValue)
    (hobj : ∀ m, v2 ≠ JSONValue.obj m) (hnull : v2 ≠ JSONValue.null) :
    compareValues location (JSONValue.obj m1) v2 =
      [Diag.mismatch location (JSONValue.obj m1) v2] := by
  cases v2 with
  | null => exact absurd rfl hnull
  | obj m => exact absurd rfl (hobj m)
  | bool b => simp [compareValues]
  | num x => simp [compareValues]
  | str s => simp [compareValues]
  | arr xs => simp [compareValues]

theorem boolEqual_iff (b : Bool) (v2 : JSONValue) :
    boolEqual b v2 = true ↔ (v2 = JSONValue.bool b ∨ (b = false ∧ v2 = JSONValue.null)) := by
  cases v2 <;> simp [boolEqual, JSONValue.eqBool, JSONValue.isNullV] <;> constructor <;> intro h <;> simp_all <;> omega

theorem floatEqual_iff (x : Rat) (v2 : JSONValue) :
    floatEqual x v2 = true ↔ (v2 = JSONValue.num x ∨ (x = 0 ∧ v2 = JSONValue.null)) := by
  cases v2 <;> simp [floatEqual, JSONValue.eqNum, JSONValue.isNullV] <;> constructor <;> intro h <;> simp_all <;> omega

theorem stringEqual_iff (s : String) (v2 : JSONValue) :
    stringEqual s v2 = true ↔ (v2 = JSONValue.str s ∨ (s = "" ∧ v2 = JSONValue.null)) := by
  cases v2 <;> simp [stringEqual, JSONValue.eqStr, JSONValue.isNullV] <;> constructor <;> intro h <;> simp_all <;> omega

theorem compareValues_bool (location : String) (b : Bool) (v2 : JSONValue) :
    compareValues location (JSONValue.bool b) v2 =
      if boolEqual b v2 then [] else [Diag.mismatch location (JSONValue.bool b) v2] := by
  by_cases h : boolEqual b v2 <;> simp [compareValues, h]

theorem compareValues_num (location : String) (x : Rat) (v2 : JSONValue) :
    compareValues location (JSONValue.num x) v2 =
      if floatEqual x v2 then [] else [Diag.mismatch location (JSONValue.num x) v2] := by
  by_cases h : floatEqual x v2 <;> simp [compareValues, h]

theorem compareValues_str (location : String) (s : String) (v2 : JSONValue) :
    compareValues location (JSONValue.str s) v2 =
      if stringEqual s v2 then [] else [Diag.mismatch location (JSONValue.str s) v2] := by
  by_cases h : stringEqual s v2 <;> simp [compareValues, h]

theorem compareValues_null (location : String) (v2 : JSONValue) :
    compareValues location JSONValue.null v2 =
      if isEmpty v2 then [] else [Diag.mismatch location JSONValue.null v2] := by
  by_cases h : isEmpty v2 <;> simp [compareValues, h]

/-- C1: comparing two objects makes exactly two passes: the first visits the
left object's distinct keys in sorted order, comparing left[key] against
right[key], with the absent-key lookup on the right yielding Null; the
second visits, in sorted order, exactly the keys present only in the right
object, comparing Null against right[key].  No key is compared twice, and a
left object against a non-object non-Null right yields exactly one mismatch
diagnostic at the current path with no descent. -/
theorem two_pass_object_comparison (location : String) (map1 map2 : JsonMap) :
    (compareMaps location map1 map2 =
      ((keys map1).map fun k =>
        compareValues (getLocation location k) (mapIndex map1 k) (mapIndex map2 k)).flatten
      ++ (((keys map2).filter fun k => !containsKey map1 k).map fun k =>
        compareValues (getLocation location k) JSONValue.null (mapIndex map2 k)).flatten)
    ∧ (keys map1).Sorted (· ≤ ·) ∧ (keys map1).Nodup
    ∧ (keys map2).Sorted (· ≤ ·) ∧ (keys map2).Nodup
    ∧ (∀ k, k ∈ keys map1 ↔ k ∈ map1.map Prod.fst)
    ∧ (∀ k, k ∈ keys map2 ↔ k ∈ map2.map Prod.fst)
    ∧ (∀ k, containsKey map2 k = false → mapIndex map2 k = JSONValue.null)
    ∧ (∀ v2 : JSONValue, (∀ m, v2 ≠ JSONValue.obj m) → v2 ≠ JSONValue.null →
        compareValues location (JSONValue.obj map1) v2 =
          [Diag.mismatch location (JSONValue.obj map1) v2]) :=
  ⟨compareMaps_eq location map1 map2, keys_sorted map1, keys_nodup map1,
    keys_sorted map2, keys_nodup map2,
    fun k => mem_keys_iff map1 k, fun k => mem_keys_iff map2 k,
    fun k => mapIndex_eq_null_of_not_contains map2 k,
    fun v2 => compareValues_obj_other location map1 v2⟩

theorem two_pass_object_comparison_witness :
    compareValues "p" (JSONValue.obj [("a", JSONValue.num 1)]) (JSONValue.str "x") =
      [Diag.mismatch "p" (JSONValue.obj [("a", JSONValue.num 1)]) (JSONValue.str "x")] :=
  (two_pass_object_comparison "p" [("a", JSONValue.num 1)] []).2.2.2.2.2.2.2.2
    (JSONValue.str "x") (fun m h => by cases h) (fun h => by cases h)

/-- C2: a scalar left value compares clean exactly when the right value is
the identical scalar, or the left value is the zero value of its type
(false, 0, the empty string) and the right value is Null or absent; any
other scalar pairing yields exactly one mismatch diagnostic at the current
path. -/
theorem scalar_nil_equivalence (location : String) :
    (∀ (b : Bool) (v2 : JSONValue),
      (compareValues location (JSONValue.bool b) v2 = [] ∨
        compareValues location (JSONValue.bool b) v2 =
          [Diag.mismatch location (JSONValue.bool b) v2])
      ∧ (compareValues location (JSONValue.bool b) v2 = [] ↔
          (v2 = JSONValue.bool b ∨ (b = false ∧ v2 = JSONValue.null))))
    ∧ (∀ (x : Rat) (v2 : JSONValue),
      (compareValues location (JSONValue.num x) v2 = [] ∨
        compareValues location (JSONValue.num x) v2 =
          [Diag.mismatch location (JSONValue.num x) v2])
      ∧ (compareValues location (JSONValue.num x) v2 = [] ↔
          (v2 = JSONValue.num x ∨ (x = 0 ∧ v2 = JSONValue.null))))
    ∧ (∀ (s : String) (v2 : JSONValue),
      (compareValues location (JSONValue.str s) v2 = [] ∨
        compareValues location (JSONValue.str s) v2 =
          [Diag.mismatch location (JSONValue.str s) v2])
      ∧ (compareValues location (JSONValue.str s) v2 = [] ↔
          (v2 = JSONValue.str s ∨ (s = "" ∧ v2 = JSONValue.null)))) := by
  refine ⟨fun b v2 => ?_, fun x v2 => ?_, fun s v2 => ?_⟩
  · rw [compareValues_bool]
    by_cases h : boolEqual b v2
    · simp [h, (boolEqual_iff b v2).mp h]
    · have := (boolEqual_iff b v2).not.mp (by simpa using h)
      simp [h, this]
  · rw [compareValues_num]
    by_cases h : floatEqual x v2
    · simp [h, (floatEqual_iff x v2).mp h]
    · have := (floatEqual_iff x v2).not.mp (by simpa using h)
      simp [h, this]
  · rw [compareValues_str]
    by_cases h : stringEqual s v2
    · simp [h, (stringEqual_iff s v2).mp h]
    · have := (stringEqual_iff s v2).not.mp (by simpa using h)
      simp [h, this]

theorem compareValues_arr (location : String) (xs : List JSONValue) (v2 : JSONValue) :
    compareValues location (JSONValue.arr xs) v2 = compareSlices location (JSONValue.arr xs) v2 := by
  rw [compareValues]

theorem compareSlices_arr_arr (location : String) (xs ys : List JSONValue) :
    compareSlices location (JSONValue.arr xs) (JSONValue.arr ys) =
      if xs.length = ys.length then compareSlicesLoop location 0 xs ys
      else [Diag.mismatch location (JSONValue.arr xs) (JSONValue.arr ys)] := by
  by_cases h : xs.length = ys.length <;> simp [compareSlices, h]

theorem compareSlices_arr_null (location : String) (xs : List JSONValue) :
    compareSlices location (JSONValue.arr xs) JSONValue.null =
      if xs.length = 0 then [] else [Diag.mismatch location (JSONValue.arr xs) JSONValue.null] := by
  by_cases h : xs.length = 0 <;> simp [compareSlices, h]

theorem compareSlices_arr_other (location : String) (xs : List JSONValue) (v2 : JSONValue)
    (harr : ∀ ys, v2 ≠ JSONValue.arr ys) (hnull : v2 ≠ JSONValue.null) :
    compareSlices location (JSONValue.arr xs) v2 =
      [Diag.mismatch location (JSONValue.arr xs) v2] := by
  cases v2 with
  | null => exact absurd rfl hnull
  | arr ys => exact absurd rfl (harr ys)
  | bool b => simp [compareSlices]
  | num x => simp [compareSlices]
  | str s => simp [compareSlices]
  | obj m => simp [compareSlices]

theorem compareSlicesLoop_eq (location : String) :
    ∀ (xs ys : List JSONValue) (i : Nat),
      compareSlicesLoop location i xs ys =
        ((List.enumFrom i (xs.zip ys)).map fun p =>
          compareValues (location ++ "[" ++ toString p.1 ++ "]") p.2.1 p.2.2).flatten
  | [], ys, i => by cases ys <;> simp [compareSlicesLoop]
  | x :: xs, [], i => by simp [compareSlicesLoop]
  | x :: xs, y :: ys, i => by
    rw [compareSlicesLoop, compareSlicesLoop_eq location xs ys (i + 1)]
    simp

theorem compareSlicesLoop_mem (location : String) :
    ∀ (xs ys : List JSONValue) (i : Nat) (d : Diag),
      d ∈ compareSlicesLoop location i xs ys →
      ∃ (j : Nat) (x y : JSONValue), x ∈ xs ∧ y ∈ ys ∧
        d ∈ compareValues (location ++ "[" ++ toString j ++ "]") x y
  | x :: xs, y :: ys, i, d => by
    rw [compareSlicesLoop]
    intro hd
    rcases List.mem_append.mp hd with h | h
    · exact ⟨i, x, y, by simp, by simp, h⟩
    · obtain ⟨j, x0, y0, hx, hy, hmem⟩ := compareSlicesLoop_mem location xs ys (i + 1) d h
      exact ⟨j, x0, y0, by simp [hx], by simp [hy], hmem⟩
  | [], ys, i, d => by cases ys <;> simp [compareSlicesLoop]
  | x :: xs, [], i, d => by simp [compareSlicesLoop]

theorem compareMaps_mem (location : String) (map1 map2 : JsonMap) (d : Diag)
    (hd : d ∈ compareMaps location map1 map2) :
    ∃ k v1 v2, d ∈ compareValues (getLocation location k) v1 v2 ∧
      sizeOf v1 ≤ sizeOf map1 ∧ sizeOf v2 ≤ sizeOf map2 := by
  rw [compareMaps_eq] at hd
  rcases List.mem_append.mp hd with h | h
  · obtain ⟨l, hl, hdl⟩ := List.mem_flatten.mp h
    obtain ⟨k, hk, rfl⟩ := List.mem_map.mp hl
    exact ⟨k, _, _, hdl, sizeOf_mapIndex_le map1 k, sizeOf_mapIndex_le map2 k⟩
  · obtain ⟨l, hl, hdl⟩ := List.mem_flatten.mp h
    obtain ⟨k, hk, rfl⟩ := List.mem_map.mp hl
    refine ⟨k, JSONValue.null, _, hdl, ?_, sizeOf_mapIndex_le map2 k⟩
    have := one_le_sizeOf_list map1
    simp; omega

theorem getLocation_extends (location key : String) :
    ∃ t, getLocation location key = location ++ t := by
  by_cases h : location = ""
  · exact ⟨key, by rw [getLocation, if_pos h, h, String.empty_append]⟩
  · exact ⟨"." ++ key, by rw [getLocation, if_neg h, String.append_assoc]⟩

theorem mismatch_location_extends :
    ∀ (n : Nat) (v1 v2 : JSONValue) (location : String), sizeOf v1 + sizeOf v2 ≤ n →
      ∀ d ∈ compareValues location v1 v2, ∃ t a b, d = Diag.mismatch (location ++ t) a b := by
  intro n
  induction n using Nat.strong_induction_on with
  | _ n ih =>
    intro v1 v2 location hn d hd
    match v1 with
    | .bool b =>
      rw [compareValues_bool] at hd
      split at hd
      · simp at hd
      · simp at hd
        exact ⟨"", _, _, by rw [hd, String.append_empty]⟩
    | .num x =>
      rw [compareValues_num] at hd
      split at hd
      · simp at hd
      · simp at hd
        exact ⟨"", _, _, by rw [hd, String.append_empty]⟩
    | .str s =>
      rw [compareValues_str] at hd
      split at hd
      · simp at hd
      · simp at hd
        exact ⟨"", _, _, by rw [hd, String.append_empty]⟩
    | .null =>
      rw [compareValues_null] at hd
      split at hd
      · simp at hd
      · simp at hd
        exact ⟨"", _, _, by rw [hd, String.append_empty]⟩
    | .obj m1 =>
      match v2 with
      | .obj m2 =>
        rw [compareValues_obj_obj] at hd
        obtain ⟨k, w1, w2, hmem, hs1, hs2⟩ := compareMaps_mem location m1 m2 d hd
        have hsz : sizeOf w1 + sizeOf w2 < n := by
          have h1 : sizeOf (JSONValue.obj m1) = 1 + sizeOf m1 := by simp
          have h2 : sizeOf (JSONValue.obj m2) = 1 + sizeOf m2 := by simp
          omega
        obtain ⟨t0, ht0⟩ := getLocation_extends location k
        obtain ⟨t, a, b, hab⟩ :=
          ih (sizeOf w1 + sizeOf w2) hsz w1 w2 (getLocation location k) le_rfl d hmem
        exact ⟨t0 ++ t, a, b, by rw [hab, ht0, String.append_assoc]⟩
      | .null =>
        rw [compareValues_obj_null] at hd
        obtain ⟨k, w1, w2, hmem, hs1, hs2⟩ := compareMaps_mem location m1 [] d hd
        have hsz : sizeOf w1 + sizeOf w2 < n := by
          have h1 : sizeOf (JSONValue.obj m1) = 1 + sizeOf m1 := by simp
          have h2 : sizeOf (JSONValue.null) = 1 := by simp
          have h3 : sizeOf ([] : JsonMap) = 1 := by simp
          omega
        obtain ⟨t0, ht0⟩ := getLocation_extends location k
        obtain ⟨t, a, b, hab⟩ :=
          ih (sizeOf w1 + sizeOf w2) hsz w1 w2 (getLocation location k) le_rfl d hmem
        exact ⟨t0 ++ t, a, b, by rw [hab, ht0, String.append_assoc]⟩
      | .bool b2 =>
        rw [compareValues_obj_other location m1 _ (by intro m h; cases h) (by intro h; cases h)] at hd
        simp at hd
        exact ⟨"", _, _, by rw [hd, String.append_empty]⟩
      | .num x2 =>
        rw [compareValues_obj_other location m1 _ (by intro m h; cases h) (by intro h; cases h)] at hd
        simp at hd
        exact ⟨"", _, _, by rw [hd, String.append_empty]⟩
      | .str s2 =>
        rw [compareValues_obj_other location m1 _ (by intro m h; cases h) (by intro h; cases h)] at hd
        simp at hd
        exact ⟨"", _, _, by rw [hd, String.append_empty]⟩
      | .arr ys =>
        rw [compareValues_obj_other location m1 _ (by intro m h; cases h) (by intro h; cases h)] at hd
        simp at hd
        exact ⟨"", _, _, by rw [hd, String.append_empty]⟩
    | .arr xs =>
      rw [compareValues_arr] at hd
      match v2 with
      | .arr ys =>
        rw [compareSlices_arr_arr] at hd
        split at hd
        · obtain ⟨j, x, y, hx, hy, hmem⟩ := compareSlicesLoop_mem location xs ys 0 d hd
          have hsz : sizeOf x + sizeOf y < n := by
            have h1 := List.sizeOf_lt_of_mem hx
            have h2 := List.sizeOf_lt_of_mem hy
            have h3 : sizeOf (JSONValue.arr xs) = 1 + sizeOf xs := by simp
            have h4 : sizeOf (JSONValue.arr ys) = 1 + sizeOf ys := by simp
            omega
          obtain ⟨t, a, b, hab⟩ :=
            ih (sizeOf x + sizeOf y) hsz x y (location ++ "[" ++ toString j ++ "]") le_rfl d hmem
          refine ⟨"[" ++ toString j ++ "]" ++ t, a, b, ?_⟩
          rw [hab]
          congr 1
          simp [String.append_assoc]
        · simp at hd
          exact ⟨"", _, _, by rw [hd, String.append_empty]⟩
      | .null =>
        rw [compareSlices_arr_null] at hd
        split at hd
        · simp at hd
        · simp at hd
          exact ⟨"", _, _, by rw [hd, String.append_empty]⟩
      | .bool b2 =>
        rw [compareSlices_arr_other location xs _ (by intro m h; cases h) (by intro h; cases h)] at hd
        simp at hd
        exact ⟨"", _, _, by rw [hd, String.append_empty]⟩
      | .num x2 =>
        rw [compareSlices_arr_other location xs _ (by intro m h; cases h) (by intro h; cases h)] at hd
        simp at hd
        exact ⟨"", _, _, by rw [hd, String.append_empty]⟩
      | .str s2 =>
        rw [compareSlices_arr_other location xs _ (by intro m h; cases h) (by intro h; cases h)] at hd
        simp at hd
        exact ⟨"", _, _, by rw [hd, String.append_empty]⟩
      | .obj m2 =>
        rw [compareSlices_arr_other location xs _ (by intro m h; cases h) (by intro h; cases h)] at hd
        simp at hd
        exact ⟨"", _, _, by rw [hd, String.append_empty]⟩

/-- C4: a left array against a right value that is neither an array nor
Null, or against an array or Null (treated as zero-length) of a different
length, yields exactly one mismatch diagnostic at the parent path with no
per-element comparison; equal lengths are compared pairwise in index order
at the indexed sub-paths, and no diagnostic is emitted at the parent path
itself. -/
theorem array_comparison_rule (location : String) (xs : List JSONValue) :
    (∀ v2 : JSONValue, (∀ ys, v2 ≠ JSONValue.arr ys) → v2 ≠ JSONValue.null →
      compareValues location (JSONValue.arr xs) v2 =
        [Diag.mismatch location (JSONValue.arr xs) v2])
    ∧ (∀ ys : List JSONValue, xs.length ≠ ys.length →
      compareValues location (JSONValue.arr xs) (JSONValue.arr ys) =
        [Diag.mismatch location (JSONValue.arr xs) (JSONValue.arr ys)])
    ∧ (xs.length ≠ 0 →
      compareValues location (JSONValue.arr xs) JSONValue.null =
        [Diag.mismatch location (JSONValue.arr xs) JSONValue.null])
    ∧ (xs.length = 0 →
      compareValues location (JSONValue.arr xs) JSONValue.null = [])
    ∧ (∀ ys : List JSONValue, xs.length = ys.length →
      compareValues location (JSONValue.arr xs) (JSONValue.arr ys) =
        ((List.enumFrom 0 (xs.zip ys)).map fun p =>
          compareValues (location ++ "[" ++ toString p.1 ++ "]") p.2.1 p.2.2).flatten
      ∧ ∀ a b : JSONValue,
          Diag.mismatch location a b ∉
            compareValues location (JSONValue.arr xs) (JSONValue.arr ys)) := by
  refine ⟨?_, ?_, ?_, ?_, ?_⟩
  · intro v2 harr hnull
    rw [compareValues_arr, compareSlices_arr_other location xs v2 harr hnull]
  · intro ys hne
    rw [compareValues_arr, compareSlices_arr_arr, if_neg hne]
  · intro hne
    rw [compareValues_arr, compareSlices_arr_null, if_neg hne]
  · intro he
    rw [compareValues_arr, compareSlices_arr_null, if_pos he]
  · intro ys heq
    constructor
    · rw [compareValues_arr, compareSlices_arr_arr, if_pos heq, compareSlicesLoop_eq]
    · intro a b hmem
      rw [compareValues_arr, compareSlices_arr_arr, if_pos heq] at hmem
      obtain ⟨j, x, y, hx, hy, hcv⟩ := compareSlicesLoop_mem location xs ys 0 _ hmem
      obtain ⟨t, a2, b2, habt⟩ :=
        mismatch_location_extends (sizeOf x + sizeOf y) x y
          (location ++ "[" ++ toString j ++ "]") le_rfl _ hcv
      injection habt with h1 h2 h3
      have hlen := congrArg String.length h1
      rw [String.length_append, String.length_append, String.length_append,
        String.length_append] at hlen
      have hbr : ("[" : String).length = 1 := by decide
      have hbr2 : ("]" : String).length = 1 := by decide
      omega

theorem array_comparison_rule_witness :
    compareValues "arr" (JSONValue.arr [JSONValue.num 1, JSONValue.num 2, JSONValue.num 3])
      (JSONValue.arr [JSONValue.num 1, JSONValue.num 2]) =
      [Diag.mismatch "arr" (JSONValue.arr [JSONValue.num 1, JSONValue.num 2, JSONValue.num 3])
        (JSONValue.arr [JSONValue.num 1, JSONValue.num 2])] :=
  (array_comparison_rule "arr" [JSONValue.num 1, JSONValue.num 2, JSONValue.num 3]).2.1
    [JSONValue.num 1, JSONValue.num 2] (by decide)

/-- C6: location paths join object keys with a dot, starting from the empty
string at the top level so that a top-level key's path is the bare key, and
array indices are appended as bracketed indices; the missing-nested-key
example yields exactly one diagnostic, at path obj.b. -/
theorem location_path_shape :
    (∀ k : String, getLocation "" k = k)
    ∧ (∀ l k : String, getLocation l k = if l = "" then k else l ++ "." ++ k)
    ∧ (∀ (l : String) (i : Nat) (x y : JSONValue) (xs ys : List JSONValue),
        compareSlicesLoop l i (x :: xs) (y :: ys) =
          compareValues (l ++ "[" ++ toString i ++ "]") x y
            ++ compareSlicesLoop l (i + 1) xs ys)
    ∧ compareMaps ""
        [("obj", JSONValue.obj [("a", JSONValue.str "val"), ("b", JSONValue.str "val2")])]
        [("obj", JSONValue.obj [("a", JSONValue.str "val")])]
        = [Diag.mismatch "obj.b" (JSONValue.str "val2") JSONValue.null] := by
  refine ⟨fun k => by simp [getLocation], fun l k => rfl,
    fun l i x y xs ys => by rw [compareSlicesLoop], ?_⟩
  simp +decide [compareMaps, compareMapsPass1, compareMapsPass2, compareValues, compareSlices,
    compareSlicesLoop, keys, mapIndex, containsKey, getLocation, boolEqual, floatEqual,
    stringEqual, isEmpty, isMapEmpty, JSONValue.eqStr, JSONValue.eqBool, JSONValue.eqNum,
    JSONValue.isNullV, List.insertionSort, List.orderedInsert, List.dedup, List.lookup]

/-- Duplicate-freedom of a key list, written as a recursion. -/
def nodupKeysB : List String → Bool
  | [] => true
  | k :: rest => !(rest.contains k) && nodupKeysB rest

mutual

/-- Well-formedness of a decoded value: object key lists are duplicate-free
at every level, as maps decoded by `encoding/json` always are. -/
def wfJSON : JSONValue → Bool
  | .null => true
  | .bool _ => true
  | .num _ => true
  | .str _ => true
  | .arr xs => wfList xs
  | .obj m => nodupKeysB (m.map Prod.fst) && wfPairs m

def wfList : List JSONValue → Bool
  | [] => true
  | x :: xs => wfJSON x && wfList xs

def wfPairs : List (String × JSONValue) → Bool
  | [] => true
  | kv :: rest => wfJSON kv.2 && wfPairs rest

end

mutual

/-- Recursive emptiness in the words of the specification: Null, the empty
string, numeric zero, boolean false, an empty array, or an object all of
whose values are themselves recursively empty (an object with no keys
counts as empty).  Stated from the spec's words, to be compared against the
source's `isEmpty`. -/
def specEmpty : JSONValue → Bool
  | .null => true
  | .str s => s == ""
  | .num x => x == 0
  | .bool b => b == false
  | .arr xs => xs.isEmpty
  | .obj m => specEmptyValues m

/-- All values of an object are recursively empty. -/
def specEmptyValues : List (String × JSONValue) → Bool
  | [] => true
  | kv :: rest => specEmpty kv.2 && specEmptyValues rest

end

theorem nodupKeysB_iff : ∀ l : List String, nodupKeysB l = true ↔ l.Nodup
  | [] => by simp [nodupKeysB]
  | k :: rest => by
    simp [nodupKeysB, nodupKeysB_iff rest, List.nodup_cons]

theorem wfPairs_iff : ∀ m : JsonMap, wfPairs m = true ↔ ∀ kv ∈ m, wfJSON kv.2 = true
  | [] => by simp [wfPairs]
  | kv :: rest => by
    simp [wfPairs, wfPairs_iff rest]

theorem specEmptyValues_iff :
    ∀ m : JsonMap, specEmptyValues m = true ↔ ∀ kv ∈ m, specEmpty kv.2 = true
  | [] => by simp [specEmptyValues]
  | kv :: rest => by
    simp [specEmptyValues, specEmptyValues_iff rest]

theorem lookup_mem : ∀ (m : JsonMap) (k : String) (v : JSONValue),
    m.lookup k = some v → (k, v) ∈ m
  | [], k, v => by simp [List.lookup]
  | kv :: tl, k, v => by
    rw [List.lookup]
    split
    · rename_i hk
      intro h
      injection h with h2
      have hkk : k = kv.1 := eq_of_beq hk
      rw [hkk, ← h2]
      simp
    · intro h
      exact List.mem_cons_of_mem _ (lookup_mem tl k v h)

theorem lookup_eq_of_nodup : ∀ (m : JsonMap), (m.map Prod.fst).Nodup →
    ∀ (k : String) (v : JSONValue), (k, v) ∈ m → m.lookup k = some v
  | [], _, k, v => by simp
  | kv :: tl, hnd, k, v => by
    intro hmem
    rw [List.map_cons, List.nodup_cons] at hnd
    rw [List.lookup]
    rcases List.mem_cons.mp hmem with h | h
    · rw [← h]
      simp
    · have hne : (k == kv.1) = false := by
        have hk : k ∈ tl.map Prod.fst := List.mem_map.mpr ⟨(k, v), h, rfl⟩
        have : k ≠ kv.1 := fun he => hnd.1 (he ▸ hk)
        simp [this]
      rw [hne]
      exact lookup_eq_of_nodup tl hnd.2 k v h

theorem isMapEmpty_iff (m : JsonMap) :
    isMapEmpty m = true ↔ ∀ k ∈ keys m, isEmpty (mapIndex m k) = true := by
  rw [isMapEmpty, List.all_eq_true]
  constructor
  · intro h k hk
    exact h ⟨k, hk⟩ (List.mem_attach _ _)
  · intro h x hx
    exact h x.1 x.2

theorem isEmpty_eq_specEmpty :
    ∀ (n : Nat) (v : JSONValue), sizeOf v ≤ n → wfJSON v = true →
      isEmpty v = specEmpty v := by
  intro n
  induction n using Nat.strong_induction_on with
  | _ n ih =>
    intro v hn hwf
    match v with
    | .null => simp [isEmpty, specEmpty]
    | .bool b => simp [isEmpty, specEmpty]
    | .num x => simp [isEmpty, specEmpty]
    | .str s => simp [isEmpty, specEmpty]
    | .arr xs =>
      rw [isEmpty, specEmpty]
      rw [Bool.eq_iff_iff]
      simp [List.isEmpty_iff_length_eq_zero]
    | .obj m =>
      rw [isEmpty, specEmpty]
      rw [wfJSON, Bool.and_eq_true] at hwf
      have hnd : (m.map Prod.fst).Nodup := (nodupKeysB_iff _).mp hwf.1
      have hwfv : ∀ kv ∈ m, wfJSON kv.2 = true := (wfPairs_iff m).mp hwf.2
      rw [Bool.eq_iff_iff, isMapEmpty_iff, specEmptyValues_iff]
      have hsz : ∀ kv ∈ m, sizeOf (kv : String × JSONValue).2 < n := by
        intro kv hkv
        have h1 := List.sizeOf_lt_of_mem hkv
        have h2 : sizeOf (JSONValue.obj m) = 1 + sizeOf m := by simp
        have h3 : sizeOf kv = 1 + sizeOf kv.1 + sizeOf kv.2 := by
          cases kv with
          | mk a b => simp
        omega
      constructor
      · intro h kv hkv
        have hk : kv.1 ∈ keys m := (mem_keys_iff m kv.1).mpr
          (List.mem_map.mpr ⟨kv, hkv, rfl⟩)
        have hmi : mapIndex m kv.1 = kv.2 := by
          rw [mapIndex, lookup_eq_of_nodup m hnd kv.1 kv.2 (by
            cases kv with
            | mk a b => exact hkv)]
        have := h kv.1 hk
        rw [hmi] at this
        rw [← ih (sizeOf kv.2) (hsz kv hkv) kv.2 le_rfl (hwfv kv hkv)]
        exact this
      · intro h k hk
        have hmem : k ∈ m.map Prod.fst := (mem_keys_iff m k).mp hk
        obtain ⟨v0, hv0⟩ := Option.isSome_iff_exists.mp ((lookup_isSome_iff m k).mpr hmem)
        have hkv : (k, v0) ∈ m := lookup_mem m k v0 hv0
        have hmi : mapIndex m k = v0 := by rw [mapIndex, hv0]
        rw [hmi]
        rw [ih (sizeOf v0) (hsz (k, v0) hkv) v0 le_rfl (hwfv (k, v0) hkv)]
        exact h (k, v0) hkv

/-- C3: against a Null left value, the comparison emits zero diagnostics
exactly when the right value is recursively empty in the specification's
sense (Null, empty string, zero, false, an empty array, or an object whose
values are all recursively empty); a right value that is not recursively
empty yields exactly one mismatch diagnostic at the current path. -/
theorem null_left_empty_rule (location : String) (v2 : JSONValue)
    (hwf : wfJSON v2 = true) :
    (compareValues location JSONValue.null v2 = [] ↔ specEmpty v2 = true)
    ∧ (specEmpty v2 = false →
      compareValues location JSONValue.null v2 =
        [Diag.mismatch location JSONValue.null v2]) := by
  rw [compareValues_null, isEmpty_eq_specEmpty (sizeOf v2) v2 le_rfl hwf]
  constructor
  · by_cases h : specEmpty v2 <;> simp [h]
  · intro h
    simp [h]

theorem null_left_empty_rule_witness :
    (compareValues "a" JSONValue.null
        (JSONValue.obj [("x", JSONValue.arr []), ("y", JSONValue.num 0)]) = []
      ↔ specEmpty (JSONValue.obj [("x", JSONValue.arr []), ("y", JSONValue.num 0)]) = true)
    ∧ (specEmpty (JSONValue.obj [("x", JSONValue.arr []), ("y", JSONValue.num 0)]) = false →
      compareValues "a" JSONValue.null
          (JSONValue.obj [("x", JSONValue.arr []), ("y", JSONValue.num 0)]) =
        [Diag.mismatch "a" JSONValue.null
          (JSONValue.obj [("x", JSONValue.arr []), ("y", JSONValue.num 0)])]) :=
  null_left_empty_rule "a" (JSONValue.obj [("x", JSONValue.arr []), ("y", JSONValue.num 0)])
    (by simp [wfJSON, wfPairs, wfList, nodupKeysB])

theorem compareValues_bool_iff (location : String) (b : Bool) (v2 : JSONValue) :
    compareValues location (JSONValue.bool b) v2 = [] ↔
      (v2 = JSONValue.bool b ∨ (b = false ∧ v2 = JSONValue.null)) := by
  rw [compareValues_bool]
  by_cases h : boolEqual b v2
  · simp [h, (boolEqual_iff b v2).mp h]
  · have hh := (boolEqual_iff b v2).not.mp (by simpa using h)
    simp [h, hh]

theorem compareValues_num_iff (location : String) (x : Rat) (v2 : JSONValue) :
    compareValues location (JSONValue.num x) v2 = [] ↔
      (v2 = JSONValue.num x ∨ (x = 0 ∧ v2 = JSONValue.null)) := by
  rw [compareValues_num]
  by_cases h : floatEqual x v2
  · simp [h, (floatEqual_iff x v2).mp h]
  · have hh := (floatEqual_iff x v2).not.mp (by simpa using h)
    simp [h, hh]

theorem compareValues_str_iff (location : String) (s : String) (v2 : JSONValue) :
    compareValues location (JSONValue.str s) v2 = [] ↔
      (v2 = JSONValue.str s ∨ (s = "" ∧ v2 = JSONValue.null)) := by
  rw [compareValues_str]
  by_cases h : stringEqual s v2
  · simp [h, (stringEqual_iff s v2).mp h]
  · have hh := (stringEqual_iff s v2).not.mp (by simpa using h)
    simp [h, hh]

theorem compareValues_null_left_iff (location : String) (v : JSONValue) :
    compareValues location JSONValue.null v = [] ↔ isEmpty v = true := by
  by_cases h : isEmpty v <;> simp [compareValues_null, h]

theorem compareMaps_empty_iff (location : String) (map1 map2 : JsonMap) :
    compareMaps location map1 map2 = [] ↔
      ∀ k : String,
        compareValues (getLocation location k) (mapIndex map1 k) (mapIndex map2 k) = [] := by
  rw [compareMaps_eq, List.append_eq_nil, List.flatten_eq_nil_iff, List.flatten_eq_nil_iff]
  constructor
  · rintro ⟨h1, h2⟩ k
    by_cases hc1 : containsKey map1 k
    · refine h1 _ (List.mem_map.mpr ⟨k, ?_, rfl⟩)
      exact (mem_keys_iff map1 k).mpr ((containsKey_iff map1 k).mp hc1)
    · by_cases hc2 : containsKey map2 k
      · have hknull := mapIndex_eq_null_of_not_contains map1 k (by simpa using hc1)
        rw [hknull]
        refine h2 _ (List.mem_map.mpr ⟨k, ?_, rfl⟩)
        rw [List.mem_filter]
        exact ⟨(mem_keys_iff map2 k).mpr ((containsKey_iff map2 k).mp hc2),
          by simpa using hc1⟩
      · have h1n := mapIndex_eq_null_of_not_contains map1 k (by simpa using hc1)
        have h2n := mapIndex_eq_null_of_not_contains map2 k (by simpa using hc2)
        rw [h1n, h2n, compareValues_null_left_iff]
        simp [isEmpty]
  · intro h
    constructor
    · intro l hl
      obtain ⟨k, hk, rfl⟩ := List.mem_map.mp hl
      exact h k
    · intro l hl
      obtain ⟨k, hk, rfl⟩ := List.mem_map.mp hl
      rw [List.mem_filter] at hk
      have hnul := mapIndex_eq_null_of_not_contains map1 k (by simpa using hk.2)
      rw [← hnul]
      exact h k

theorem compareValues_null_right :
    ∀ (n : Nat) (v : JSONValue) (location : String), sizeOf v ≤ n →
      (compareValues location v JSONValue.null = [] ↔ isEmpty v = true) := by
  intro n
  induction n using Nat.strong_induction_on with
  | _ n ih =>
    intro v location hn
    match v with
    | .null => simp [compareValues_null_left_iff, isEmpty]
    | .bool b => rw [compareValues_bool_iff]; cases b <;> simp [isEmpty]
    | .num x => rw [compareValues_num_iff]; simp [isEmpty]
    | .str s => rw [compareValues_str_iff]; simp [isEmpty]
    | .arr xs =>
      rw [compareValues_arr, compareSlices_arr_null]
      by_cases h : xs.length = 0 <;> simp [h, isEmpty]
    | .obj m =>
      rw [compareValues_obj_null, compareMaps_empty_iff, isEmpty, isMapEmpty_iff]
      constructor
      · intro h k hk
        have hc : containsKey m k = true :=
          (containsKey_iff m k).mpr ((mem_keys_iff m k).mp hk)
        have hszv : sizeOf (mapIndex m k) < n := by
          have h1 := sizeOf_mapIndex_lt m k hc
          have h2 : sizeOf (JSONValue.obj m) = 1 + sizeOf m := by simp
          omega
        have := h k
        rw [mapIndex_nil] at this
        exact (ih (sizeOf (mapIndex m k)) hszv (mapIndex m k) (getLocation location k)
          le_rfl).mp this
      · intro h k
        rw [mapIndex_nil]
        by_cases hc : containsKey m k
        · have hk : k ∈ keys m := (mem_keys_iff m k).mpr ((containsKey_iff m k).mp hc)
          have hszv : sizeOf (mapIndex m k) < n := by
            have h1 := sizeOf_mapIndex_lt m k hc
            have h2 : sizeOf (JSONValue.obj m) = 1 + sizeOf m := by simp
            omega
          exact (ih (sizeOf (mapIndex m k)) hszv (mapIndex m k) (getLocation location k)
            le_rfl).mpr (h k hk)
        · rw [mapIndex_eq_null_of_not_contains m k (by simpa using hc)]
          simp [compareValues_null_left_iff, isEmpty]

theorem compareSlicesLoop_refl (location : String) :
    ∀ (xs : List JSONValue) (i : Nat),
      (∀ x ∈ xs, ∀ l : String, compareValues l x x = []) →
      compareSlicesLoop location i xs xs = []
  | [], i => by simp [compareSlicesLoop]
  | x :: xs, i => by
    intro h
    rw [compareSlicesLoop]
    rw [h x (by simp) _,
      compareSlicesLoop_refl location xs (i + 1) (fun y hy l => h y (by simp [hy]) l)]
    simp

theorem compareValues_refl_aux :
    ∀ (n : Nat) (v : JSONValue) (location : String), sizeOf v ≤ n →
      compareValues location v v = [] := by
  intro n
  induction n using Nat.strong_induction_on with
  | _ n ih =>
    intro v location hn
    match v with
    | .null => simp [compareValues_null_left_iff, isEmpty]
    | .bool b => rw [compareValues_bool_iff]; simp
    | .num x => rw [compareValues_num_iff]; simp
    | .str s => rw [compareValues_str_iff]; simp
    | .arr xs =>
      rw [compareValues_arr, compareSlices_arr_arr, if_pos rfl]
      refine compareSlicesLoop_refl location xs 0 ?_
      intro x hx l
      have hsz : sizeOf x < n := by
        have h1 := List.sizeOf_lt_of_mem hx
        have h2 : sizeOf (JSONValue.arr xs) = 1 + sizeOf xs := by simp
        omega
      exact ih (sizeOf x) hsz x l le_rfl
    | .obj m =>
      rw [compareValues_obj_obj, compareMaps_empty_iff]
      intro k
      have hsz : sizeOf (mapIndex m k) < n := by
        have h1 := sizeOf_mapIndex_le m k
        have h2 : sizeOf (JSONValue.obj m) = 1 + sizeOf m := by simp
        omega
      exact ih (sizeOf (mapIndex m k)) hsz (mapIndex m k) (getLocation location k) le_rfl

theorem compareSlicesLoop_empty_symm (location : String) :
    ∀ (xs ys : List JSONValue) (i : Nat),
      (∀ x ∈ xs, ∀ y ∈ ys, ∀ l : String,
        (compareValues l x y = [] ↔ compareValues l y x = [])) →
      (compareSlicesLoop location i xs ys = [] ↔ compareSlicesLoop location i ys xs = [])
  | [], ys, i => by cases ys <;> simp [compareSlicesLoop]
  | x :: xs, [], i => by simp [compareSlicesLoop]
  | x :: xs, y :: ys, i => by
    intro h
    rw [compareSlicesLoop, compareSlicesLoop]
    rw [List.append_eq_nil, List.append_eq_nil]
    have h1 := h x (by simp) y (by simp) (location ++ "[" ++ toString i ++ "]")
    have h2 := compareSlicesLoop_empty_symm location xs ys (i + 1)
      (fun a ha b hb l => h a (by simp [ha]) b (by simp [hb]) l)
    tauto

theorem compareValues_empty_symm :
    ∀ (n : Nat) (v1 v2 : JSONValue) (location : String), sizeOf v1 + sizeOf v2 ≤ n →
      (compareValues location v1 v2 = [] ↔ compareValues location v2 v1 = []) := by
  intro n
  induction n using Nat.strong_induction_on with
  | _ n ih =>
    intro v1 v2 location hn
    match v1, v2 with
    | w, .null =>
      rw [compareValues_null_right (sizeOf w) w location le_rfl, compareValues_null_left_iff]
    | .null, w =>
      rw [compareValues_null_right (sizeOf w) w location le_rfl, compareValues_null_left_iff]
    | .bool b1, .bool b2 =>
      rw [compareValues_bool_iff, compareValues_bool_iff]
      simp [eq_comm]
    | .bool b1, .num x2 =>
      rw [compareValues_bool_iff, compareValues_num_iff]
      simp
    | .bool b1, .str s2 =>
      rw [compareValues_bool_iff, compareValues_str_iff]
      simp
    | .bool b1, .arr ys =>
      rw [compareValues_bool_iff,
        compareValues_arr, compareSlices_arr_other location ys _
          (by intro m h; cases h) (by intro h; cases h)]
      simp
    | .bool b1, .obj m2 =>
      rw [compareValues_bool_iff,
        compareValues_obj_other location m2 _ (by intro m h; cases h) (by intro h; cases h)]
      simp
    | .num x1, .bool b2 =>
      rw [compareValues_num_iff, compareValues_bool_iff]
      simp
    | .num x1, .num x2 =>
      rw [compareValues_num_iff, compareValues_num_iff]
      simp [eq_comm]
    | .num x1, .str s2 =>
      rw [compareValues_num_iff, compareValues_str_iff]
      simp
    | .num x1, .arr ys =>
      rw [compareValues_num_iff,
        compareValues_arr, compareSlices_arr_other location ys _
          (by intro m h; cases h) (by intro h; cases h)]
      simp
    | .num x1, .obj m2 =>
      rw [compareValues_num_iff,
        compareValues_obj_other location m2 _ (by intro m h; cases h) (by intro h; cases h)]
      simp
    | .str s1, .bool b2 =>
      rw [compareValues_str_iff, compareValues_bool_iff]
      simp
    | .str s1, .num x2 =>
      rw [compareValues_str_iff, compareValues_num_iff]
      simp
    | .str s1, .str s2 =>
      rw [compareValues_str_iff, compareValues_str_iff]
      simp [eq_comm]
    | .str s1, .arr ys =>
      rw [compareValues_str_iff,
        compareValues_arr, compareSlices_arr_other location ys _
          (by intro m h; cases h) (by intro h; cases h)]
      simp
    | .str s1, .obj m2 =>
      rw [compareValues_str_iff,
        compareValues_obj_other location m2 _ (by intro m h; cases h) (by intro h; cases h)]
      simp
    | .arr xs, .bool b2 =>
      rw [compareValues_bool_iff,
        compareValues_arr, compareSlices_arr_other location xs _
          (by intro m h; cases h) (by intro h; cases h)]
      simp
    | .arr xs, .num x2 =>
      rw [compareValues_num_iff,
        compareValues_arr, compareSlices_arr_other location xs _
          (by intro m h; cases h) (by intro h; cases h)]
      simp
    | .arr xs, .str s2 =>
      rw [compareValues_str_iff,
        compareValues_arr, compareSlices_arr_other location xs _
          (by intro m h; cases h) (by intro h; cases h)]
      simp
    | .arr xs, .arr ys =>
      rw [compareValues_arr, compareValues_arr, compareSlices_arr_arr, compareSlices_arr_arr]
      by_cases h : xs.length = ys.length
      · rw [if_pos h, if_pos h.symm]
        refine compareSlicesLoop_empty_symm location xs ys 0 ?_
        intro x hx y hy l
        have hsz : sizeOf x + sizeOf y < n := by
          have h1 := List.sizeOf_lt_of_mem hx
          have h2 := List.sizeOf_lt_of_mem hy
          have h3 : sizeOf (JSONValue.arr xs) = 1 + sizeOf xs := by simp
          have h4 : sizeOf (JSONValue.arr ys) = 1 + sizeOf ys := by simp
          omega
        exact ih (sizeOf x + sizeOf y) hsz x y l le_rfl
      · rw [if_neg h, if_neg (fun hh => h hh.symm)]
        simp
    | .arr xs, .obj m2 =>
      rw [compareValues_arr, compareSlices_arr_other location xs _
          (by intro m h; cases h) (by intro h; cases h),
        compareValues_obj_other location m2 _ (by intro m h; cases h) (by intro h; cases h)]
      simp
    | .obj m1, .bool b2 =>
      rw [compareValues_bool_iff,
        compareValues_obj_other location m1 _ (by intro m h; cases h) (by intro h; cases h)]
      simp
    | .obj m1, .num x2 =>
      rw [compareValues_num_iff,
        compareValues_obj_other location m1 _ (by intro m h; cases h) (by intro h; cases h)]
      simp
    | .obj m1, .str s2 =>
      rw [compareValues_str_iff,
        compareValues_obj_other location m1 _ (by intro m h; cases h) (by intro h; cases h)]
      simp
    | .obj m1, .arr ys =>
      rw [compareValues_arr, compareSlices_arr_other location ys _
          (by intro m h; cases h) (by intro h; cases h),
        compareValues_obj_other location m1 _ (by intro m h; cases h) (by intro h; cases h)]
      simp
    | .obj m1, .obj m2 =>
      rw [compareValues_obj_obj, compareValues_obj_obj,
        compareMaps_empty_iff, compareMaps_empty_iff]
      have hpt : ∀ k : String,
          (compareValues (getLocation location k) (mapIndex m1 k) (mapIndex m2 k) = [] ↔
           compareValues (getLocation location k) (mapIndex m2 k) (mapIndex m1 k) = []) := by
        intro k
        have hsz : sizeOf (mapIndex m1 k) + sizeOf (mapIndex m2 k) < n := by
          have h1 := sizeOf_mapIndex_le m1 k
          have h2 := sizeOf_mapIndex_le m2 k
          have h3 : sizeOf (JSONValue.obj m1) = 1 + sizeOf m1 := by simp
          have h4 : sizeOf (JSONValue.obj m2) = 1 + sizeOf m2 := by simp
          omega
        exact ih (sizeOf (mapIndex m1 k) + sizeOf (mapIndex m2 k)) hsz
          (mapIndex m1 k) (mapIndex m2 k) (getLocation location k) le_rfl
      constructor
      · intro h k
        exact (hpt k).mp (h k)
      · intro h k
        exact (hpt k).mpr (h k)

/-- C8: reflexivity: comparing any parsed JSON value, object document, or
array document against itself yields zero diagnostics. -/
theorem compare_reflexivity (v : JSONValue) (m : JsonMap) (s : List JSONValue)
    (location : String) :
    compareValues location v v = []
    ∧ EqualMap (Except.ok m) (Except.ok m) = []
    ∧ EqualSlice (Except.ok s) (Except.ok s) = [] := by
  refine ⟨compareValues_refl_aux (sizeOf v) v location le_rfl, ?_, ?_⟩
  · rw [EqualMap, ← compareValues_obj_obj]
    exact compareValues_refl_aux (sizeOf (JSONValue.obj m)) (JSONValue.obj m) "" le_rfl
  · rw [EqualSlice, ← compareValues_arr]
    exact compareValues_refl_aux (sizeOf (JSONValue.arr s)) (JSONValue.arr s) "" le_rfl

/-- C10: symmetry of the zero-diagnostic relation: comparing a against b
yields zero diagnostics exactly when comparing b against a does, although
the two directions run different code paths. -/
theorem zero_diagnostics_symmetric (location : String) (m1 m2 : JsonMap)
    (a b : JSONValue) :
    (compareMaps location m1 m2 = [] ↔ compareMaps location m2 m1 = [])
    ∧ (compareValues location a b = [] ↔ compareValues location b a = []) := by
  constructor
  · rw [← compareValues_obj_obj, ← compareValues_obj_obj]
    exact compareValues_empty_symm
      (sizeOf (JSONValue.obj m1) + sizeOf (JSONValue.obj m2))
      (JSONValue.obj m1) (JSONValue.obj m2) location le_rfl
  · exact compareValues_empty_symm (sizeOf a + sizeOf b) a b location le_rfl

/-- C5: when either side fails to unmarshal, EqualMap and EqualSlice return
exactly one diagnostic per failed side, in side order, whose message is
"error unmarshalling json<N>: <the underlying parse error>", and perform no
structural comparison: no mismatch diagnostic appears in the result. -/
theorem parse_error_short_circuit :
    (∀ (e1 : String) (m2 : JsonMap),
      EqualMap (Except.error e1) (Except.ok m2) = [Diag.unmarshal 1 e1])
    ∧ (∀ (m1 : JsonMap) (e2 : String),
      EqualMap (Except.ok m1) (Except.error e2) = [Diag.unmarshal 2 e2])
    ∧ (∀ e1 e2 : String,
      EqualMap (Except.error e1) (Except.error e2) =
        [Diag.unmarshal 1 e1, Diag.unmarshal 2 e2])
    ∧ (∀ (e1 : String) (s2 : List JSONValue),
      EqualSlice (Except.error e1) (Except.ok s2) = [Diag.unmarshal 1 e1])
    ∧ (∀ (s1 : List JSONValue) (e2 : String),
      EqualSlice (Except.ok s1) (Except.error e2) = [Diag.unmarshal 2 e2])
    ∧ (∀ e1 e2 : String,
      EqualSlice (Except.error e1) (Except.error e2) =
        [Diag.unmarshal 1 e1, Diag.unmarshal 2 e2])
    ∧ (∀ (side : Nat) (e : String), diagMessage (Diag.unmarshal side e) =
        "error unmarshalling json" ++ toString side ++ ": " ++ e)
    ∧ (∀ (r1 r2 : Except String JsonMap) (d : Diag),
        (r1.isOk = false ∨ r2.isOk = false) → d ∈ EqualMap r1 r2 →
        ∀ (l : String) (a b : JSONValue), d ≠ Diag.mismatch l a b)
    ∧ (∀ (r1 r2 : Except String (List JSONValue)) (d : Diag),
        (r1.isOk = false ∨ r2.isOk = false) → d ∈ EqualSlice r1 r2 →
        ∀ (l : String) (a b : JSONValue), d ≠ Diag.mismatch l a b) := by
  refine ⟨fun e1 m2 => rfl, fun m1 e2 => rfl, fun e1 e2 => rfl,
    fun e1 s2 => rfl, fun s1 e2 => rfl, fun e1 e2 => rfl,
    fun side e => rfl, ?_, ?_⟩
  · intro r1 r2 d hfail hd l a b
    cases r1 with
    | error e1 =>
      cases r2 with
      | error e2 =>
        rw [EqualMap] at hd
        simp at hd
        rcases hd with rfl | rfl <;> simp
      | ok m2 =>
        rw [EqualMap] at hd
        simp at hd
        rcases hd with rfl <;> simp
    | ok m1 =>
      cases r2 with
      | error e2 =>
        rw [EqualMap] at hd
        simp at hd
        rcases hd with rfl <;> simp
      | ok m2 =>
        rcases hfail with h | h <;> simp [Except.isOk, Except.toBool] at h
  · intro r1 r2 d hfail hd l a b
    cases r1 with
    | error e1 =>
      cases r2 with
      | error e2 =>
        rw [EqualSlice] at hd
        simp at hd
        rcases hd with rfl | rfl <;> simp
      | ok s2 =>
        rw [EqualSlice] at hd
        simp at hd
        rcases hd with rfl <;> simp
    | ok s1 =>
      cases r2 with
      | error e2 =>
        rw [EqualSlice] at hd
        simp at hd
        rcases hd with rfl <;> simp
      | ok s2 =>
        rcases hfail with h | h <;> simp [Except.isOk, Except.toBool] at h

theorem parse_error_short_circuit_witness :
    Diag.unmarshal 1 "boom" ∈ EqualMap (Except.error "boom") (Except.ok ([] : JsonMap)) ∧
    ∀ (l : String) (a b : JSONValue), Diag.unmarshal 1 "boom" ≠ Diag.mismatch l a b :=
  ⟨by simp [EqualMap],
    parse_error_short_circuit.2.2.2.2.2.2.2.1 (Except.error "boom") (Except.ok [])
      (Diag.unmarshal 1 "boom") (Or.inl rfl) (by simp [EqualMap])⟩

theorem resultArgCheckT_err (resT : GoType)
    (h : ∀ e, resT = GoType.ptrTo e →
      e.kind ≠ GoKind.Struct ∧ e.kind ≠ GoKind.Map ∧
      e.kind ≠ GoKind.Slice ∧ e.kind ≠ GoKind.Array) :
    resultArgCheckT resT =
      (false,
       some ("invalid argument: result must be a pointer to a struct, slice, or map, but got "
         ++ resT.typeString)) := by
  cases resT with
  | ptrTo e =>
    obtain ⟨h1, h2, h3, h4⟩ := h e rfl
    cases e with
    | structType nm => simp [GoType.kind] at h1
    | mapType => simp [GoType.kind] at h2
    | sliceType => simp [GoType.kind] at h3
    | arrayType => simp [GoType.kind] at h4
    | ptrTo e2 => simp [resultArgCheckT, GoType.kind]
    | boolType => simp [resultArgCheckT, GoType.kind]
    | intType => simp [resultArgCheckT, GoType.kind]
    | float64Type => simp [resultArgCheckT, GoType.kind]
    | stringType => simp [resultArgCheckT, GoType.kind]
  | structType nm => simp [resultArgCheckT, GoType.kind]
  | mapType => simp [resultArgCheckT, GoType.kind]
  | sliceType => simp [resultArgCheckT, GoType.kind]
  | arrayType => simp [resultArgCheckT, GoType.kind]
  | boolType => simp [resultArgCheckT, GoType.kind]
  | intType => simp [resultArgCheckT, GoType.kind]
  | float64Type => simp [resultArgCheckT, GoType.kind]
  | stringType => simp [resultArgCheckT, GoType.kind]

/-- C7, counterexample: a nil interface result argument is not a pointer to
a struct, map, slice or array, yet StructCheck does not report the claimed
invalid-argument diagnostic: the Kind call on the nil reflect.Type panics,
and the call ends in a panic with no diagnostic. -/
theorem struct_check_nil_arg_panics :
    StructCheck "data.json" none
      ⟨Except.ok (), none, false, Except.ok [], Except.ok [], Except.ok [], Except.ok []⟩
      = Except.error GoPanic.nilTypeKind := rfl

/-- C7, as amended: when the result argument carries a dynamic type that is
not a pointer to a struct, map, slice or array, StructCheck reports exactly
one invalid-argument diagnostic naming the unsupported argument type and
returns before the file is opened or any decoding is attempted: the outcome
is the same for every environment.  A nil interface argument instead
escapes argument validation as a panic. -/
theorem struct_check_arg_validation (filename : String) (resT : GoType)
    (env env2 : RoundTripEnv)
    (h : ∀ e, resT = GoType.ptrTo e →
      e.kind ≠ GoKind.Struct ∧ e.kind ≠ GoKind.Map ∧
      e.kind ≠ GoKind.Slice ∧ e.kind ≠ GoKind.Array) :
    StructCheck filename (some resT) env =
      Except.ok [Diag.invalidArg
        ("invalid argument: result must be a pointer to a struct, slice, or map, but got "
          ++ resT.typeString)]
    ∧ StructCheck filename (some resT) env = StructCheck filename (some resT) env2 := by
  have he := resultArgCheckT_err resT h
  constructor
  · simp [StructCheck, resultArgCheck, he]
  · simp [StructCheck, resultArgCheck, he]

theorem struct_check_arg_validation_witness :
    StructCheck "f.json" (some (GoType.ptrTo GoType.stringType))
      ⟨Except.ok (), none, false, Except.ok [], Except.ok [], Except.ok [], Except.ok []⟩ =
      Except.ok [Diag.invalidArg
        ("invalid argument: result must be a pointer to a struct, slice, or map, but got "
          ++ (GoType.ptrTo GoType.stringType).typeString)] :=
  (struct_check_arg_validation "f.json" (GoType.ptrTo GoType.stringType)
    ⟨Except.ok (), none, false, Except.ok [], Except.ok [], Except.ok [], Except.ok []⟩
    ⟨Except.error "e", none, false, Except.ok [], Except.ok [], Except.ok [], Except.ok []⟩
    (fun e he => by
      injection he with h2
      subst h2
      exact ⟨by decide, by decide, by decide, by decide⟩)).1

theorem notifyErrors_eq_nil (filename : String) (errors : List Diag) :
    notifyErrors filename errors = [] ↔ errors = [] := by
  cases errors <;> simp [notifyErrors]

theorem equalMap_ne_nil (r1 r2 : Except String JsonMap)
    (h : r1.isOk = false ∨ r2.isOk = false) : EqualMap r1 r2 ≠ [] := by
  cases r1 with
  | error e1 => cases r2 <;> simp [EqualMap]
  | ok m1 =>
    cases r2 with
    | error e2 => simp [EqualMap]
    | ok m2 => rcases h with h | h <;> simp [Except.isOk, Except.toBool] at h

theorem equalSlice_ne_nil (r1 r2 : Except String (List JSONValue))
    (h : r1.isOk = false ∨ r2.isOk = false) : EqualSlice r1 r2 ≠ [] := by
  cases r1 with
  | error e1 => cases r2 <;> simp [EqualSlice]
  | ok s1 =>
    cases r2 with
    | error e2 => simp [EqualSlice]
    | ok s2 => rcases h with h | h <;> simp [Except.isOk, Except.toBool] at h

/-- C9, counterexample: calling StructCheck with a nil interface result
argument raises the nil-pointer panic inside argument validation, so this
failure path produces no diagnostic at all: the call ends in an escaped
panic, even though every later step of the environment would have
succeeded. -/
theorem nil_argument_silent_panic :
    resultArgCheck none = Except.error GoPanic.nilTypeKind
    ∧ StructCheck "data.json" none
        ⟨Except.ok (), none, false, Except.ok [], Except.ok [], Except.ok [], Except.ok []⟩
        = Except.error GoPanic.nilTypeKind := ⟨rfl, rfl⟩

/-- C9, as amended: for a result argument that carries a dynamic type, no
failure is silently swallowed and no panic escapes: StructCheck always
returns a diagnostic list, that list is empty only when argument
validation, the file open, the decode and the ignored re-encode all
succeeded (so every failure path, including the Encode error assert.go
discards, surfaces as at least one diagnostic), and EqualMap and EqualSlice
report at least one diagnostic whenever either side fails to parse.  A nil
interface argument is the exception: it panics in argument validation. -/
theorem no_silent_failure (filename : String) (resT : GoType) (env : RoundTripEnv) :
    (∃ ds : List Diag, StructCheck filename (some resT) env = Except.ok ds)
    ∧ (StructCheck filename (some resT) env = Except.ok [] →
      (resultArgCheckT resT).2 = none
      ∧ env.openResult.isOk = true
      ∧ env.decodeFailure = none
      ∧ env.encodeFails = false)
    ∧ ((resultArgCheckT resT).2.isSome = true →
        StructCheck filename (some resT) env ≠ Except.ok [])
    ∧ (env.openResult.isOk = false → StructCheck filename (some resT) env ≠ Except.ok [])
    ∧ (env.decodeFailure.isSome = true → StructCheck filename (some resT) env ≠ Except.ok [])
    ∧ (env.encodeFails = true → StructCheck filename (some resT) env ≠ Except.ok [])
    ∧ (∀ (r1 r2 : Except String JsonMap),
        (r1.isOk = false ∨ r2.isOk = false) → EqualMap r1 r2 ≠ [])
    ∧ (∀ (r1 r2 : Except String (List JSONValue)),
        (r1.isOk = false ∨ r2.isOk = false) → EqualSlice r1 r2 ≠ []) := by
  have htotal : ∃ ds : List Diag, StructCheck filename (some resT) env = Except.ok ds := by
    rw [StructCheck]
    simp only [resultArgCheck]
    rcases hr : resultArgCheckT resT with ⟨isMap, err⟩
    cases err with
    | some msg => exact ⟨_, rfl⟩
    | none =>
      cases ho : env.openResult with
      | error e => exact ⟨_, rfl⟩
      | ok u =>
        cases hd : env.decodeFailure with
        | some e => exact ⟨_, rfl⟩
        | none =>
          cases isMap
          · exact ⟨notifyErrors filename (EqualSlice env.origSlice (encSliceResult env)),
              by simp⟩
          · exact ⟨notifyErrors filename (EqualMap env.origMap (encMapResult env)),
              by simp⟩
  have hmain : StructCheck filename (some resT) env = Except.ok [] →
      (resultArgCheckT resT).2 = none
      ∧ env.openResult.isOk = true
      ∧ env.decodeFailure = none
      ∧ env.encodeFails = false := by
    intro h
    rw [StructCheck] at h
    simp only [resultArgCheck] at h
    rcases hr : resultArgCheckT resT with ⟨isMap, err⟩
    rw [hr] at h
    cases err with
    | some msg => simp at h
    | none =>
      cases ho : env.openResult with
      | error e => rw [ho] at h; simp at h
      | ok u =>
        rw [ho] at h
        cases hd : env.decodeFailure with
        | some e => rw [hd] at h; simp at h
        | none =>
          rw [hd] at h
          refine ⟨rfl, rfl, rfl, ?_⟩
          by_contra hc
          have henc : env.encodeFails = true := by
            cases hv : env.encodeFails
            · exact absurd hv hc
            · rfl
          by_cases hm : isMap = true
          · rw [hm] at h
            simp only [if_true] at h
            rw [Except.ok.injEq] at h
            have := (notifyErrors_eq_nil filename _).mp h
            refine equalMap_ne_nil env.origMap (encMapResult env) (Or.inr ?_) this
            rw [encMapResult, henc]
            rfl
          · rw [Bool.not_eq_true] at hm
            rw [hm] at h
            simp only [Bool.false_eq_true, if_false] at h
            rw [Except.ok.injEq] at h
            have := (notifyErrors_eq_nil filename _).mp h
            refine equalSlice_ne_nil env.origSlice (encSliceResult env) (Or.inr ?_) this
            rw [encSliceResult, henc]
            rfl
  refine ⟨htotal, hmain, ?_, ?_, ?_, ?_, equalMap_ne_nil, equalSlice_ne_nil⟩
  · intro ha h
    have := (hmain h).1
    rw [this] at ha
    simp at ha
  · intro ho h
    have := (hmain h).2.1
    rw [this] at ho
    simp at ho
  · intro hd h
    have := (hmain h).2.2.1
    rw [this] at hd
    simp at hd
  · intro he h
    have := (hmain h).2.2.2
    rw [this] at he
    simp at he

theorem no_silent_failure_witness :
    EqualMap (Except.error "bad") (Except.ok ([] : JsonMap)) ≠ [] :=
  (no_silent_failure "f.json" (GoType.ptrTo (GoType.structType "T"))
    ⟨Except.ok (), none, false, Except.ok [], Except.ok [], Except.ok [], Except.ok []⟩).2.2.2.2.2.2.1
    (Except.error "bad") (Except.ok []) (Or.inl rfl)
